import Mathlib

/-!
Shallow embedding of `src/npm-statistic.js` (the `npm-statistic` CLI).

The program manipulates JSON documents (the configuration file
`config.json` and the monthly statistics files under `./stats/`) through a
dotted-path `get`/`set` engine and a small command dispatcher.  We embed
JavaScript values that can appear in such documents as the inductive type
`Js` below, and translate each source function (`getJsonPart`, `readJSON`,
`writeJSON`, the `get`/`set`/`update` command handlers, `npmStatistic`,
`updateCallback`, `getStatName`) into a Lean definition over `Js` and an
explicit file-system state.

Modelling conventions, noted where they matter:
* JSON numbers are restricted to integers (`Int`); the claims under study
  never depend on non-integral numerics, and floating point is outside the
  embedding.  The JSON parser model consequently rejects fraction/exponent
  parts (treated as parse failure).
* JavaScript string lengths are counted in characters; the claims only
  involve ASCII strings, where this coincides with UTF-16 code units.
* In-place mutation of a node resolved inside a document tree
  (`obj[key] = value`) is rendered functionally as a rebuild of the
  document along the resolved path, which is observationally equivalent
  for the tree-shaped documents produced by `JSON.parse`.
-/

/-- JavaScript values that can live inside a JSON document.  `undefined`
is not a member: the source uses it only as the "not found" sentinel of
`getJsonPart`, which we render as `Option Js` with `none` for
`undefined`. -/
inductive Js where
  | null : Js
  | bool : Bool → Js
  | num : Int → Js
  | str : String → Js
  | arr : List Js → Js
  | obj : List (String × Js) → Js

mutual

/-- Structural boolean equality on `Js` (the nested lists prevent
`deriving DecidableEq`, so it is spelt out). -/
def Js.beq : Js → Js → Bool
  | .null, .null => true
  | .bool a, .bool b => a == b
  | .num a, .num b => a == b
  | .str a, .str b => a == b
  | .arr as, .arr bs => Js.beqList as bs
  | .obj fs, .obj gs => Js.beqFields fs gs
  | _, _ => false

/-- Elementwise `Js.beq` on lists of values. -/
def Js.beqList : List Js → List Js → Bool
  | [], [] => true
  | a :: as, b :: bs => Js.beq a b && Js.beqList as bs
  | _, _ => false

/-- Elementwise `Js.beq` on key-value field lists. -/
def Js.beqFields : List (String × Js) → List (String × Js) → Bool
  | [], [] => true
  | (k, v) :: fs, (l, w) :: gs => k == l && Js.beq v w && Js.beqFields fs gs
  | _, _ => false

end

mutual

theorem Js.beq_refl : ∀ a, Js.beq a a = true
  | .null => rfl
  | .bool b => by simp [Js.beq]
  | .num n => by simp [Js.beq]
  | .str s => by simp [Js.beq]
  | .arr as => Js.beqList_refl as
  | .obj fs => Js.beqFields_refl fs

theorem Js.beqList_refl : ∀ as, Js.beq (Js.arr as) (Js.arr as) = true
  | [] => rfl
  | a :: as => by
      have h1 := Js.beq_refl a
      have h2 := Js.beqList_refl as
      simp only [Js.beq, Js.beqList] at *
      simp [h1, h2]

theorem Js.beqFields_refl : ∀ fs, Js.beq (Js.obj fs) (Js.obj fs) = true
  | [] => rfl
  | (k, v) :: fs => by
      have h1 := Js.beq_refl v
      have h2 := Js.beqFields_refl fs
      simp only [Js.beq, Js.beqFields] at *
      simp [h1, h2]

end

mutual

theorem Js.eq_of_beq : ∀ a b, Js.beq a b = true → a = b
  | .null, .null, _ => rfl
  | .bool a, .bool b, h => by simp [Js.beq] at h; simp [h]
  | .num a, .num b, h => by simp [Js.beq] at h; simp [h]
  | .str a, .str b, h => by simp [Js.beq] at h; simp [h]
  | .arr as, .arr bs, h => Js.eqList_of_beq as bs h
  | .obj fs, .obj gs, h => Js.eqFields_of_beq fs gs h
  | .null, .bool _, h => by simp [Js.beq] at h
  | .null, .num _, h => by simp [Js.beq] at h
  | .null, .str _, h => by simp [Js.beq] at h
  | .null, .arr _, h => by simp [Js.beq] at h
  | .null, .obj _, h => by simp [Js.beq] at h
  | .bool _, .null, h => by simp [Js.beq] at h
  | .bool _, .num _, h => by simp [Js.beq] at h
  | .bool _, .str _, h => by simp [Js.beq] at h
  | .bool _, .arr _, h => by simp [Js.beq] at h
  | .bool _, .obj _, h => by simp [Js.beq] at h
  | .num _, .null, h => by simp [Js.beq] at h
  | .num _, .bool _, h => by simp [Js.beq] at h
  | .num _, .str _, h => by simp [Js.beq] at h
  | .num _, .arr _, h => by simp [Js.beq] at h
  | .num _, .obj _, h => by simp [Js.beq] at h
  | .str _, .null, h => by simp [Js.beq] at h
  | .str _, .bool _, h => by simp [Js.beq] at h
  | .str _, .num _, h => by simp [Js.beq] at h
  | .str _, .arr _, h => by simp [Js.beq] at h
  | .str _, .obj _, h => by simp [Js.beq] at h
  | .arr _, .null, h => by simp [Js.beq] at h
  | .arr _, .bool _, h => by simp [Js.beq] at h
  | .arr _, .num _, h => by simp [Js.beq] at h
  | .arr _, .str _, h => by simp [Js.beq] at h
  | .arr _, .obj _, h => by simp [Js.beq] at h
  | .obj _, .null, h => by simp [Js.beq] at h
  | .obj _, .bool _, h => by simp [Js.beq] at h
  | .obj _, .num _, h => by simp [Js.beq] at h
  | .obj _, .str _, h => by simp [Js.beq] at h
  | .obj _, .arr _, h => by simp [Js.beq] at h

theorem Js.eqList_of_beq : ∀ as bs, Js.beq (Js.arr as) (Js.arr bs) = true → Js.arr as = Js.arr bs
  | [], [], _ => rfl
  | a :: as, b :: bs, h => by
      simp only [Js.beq, Js.beqList, Bool.and_eq_true] at h
      have h1 := Js.eq_of_beq a b h.1
      have h2 := Js.eqList_of_beq as bs h.2
      simp only [Js.arr.injEq] at h2 ⊢
      simp [h1, h2]
  | [], _ :: _, h => by simp [Js.beq, Js.beqList] at h
  | _ :: _, [], h => by simp [Js.beq, Js.beqList] at h

theorem Js.eqFields_of_beq :
    ∀ fs gs, Js.beq (Js.obj fs) (Js.obj gs) = true → Js.obj fs = Js.obj gs
  | [], [], _ => rfl
  | (k, v) :: fs, (l, w) :: gs, h => by
      simp only [Js.beq, Js.beqFields, Bool.and_eq_true] at h
      have h1 := Js.eq_of_beq v w h.1.2
      have h2 := Js.eqFields_of_beq fs gs h.2
      have h3 : k = l := by simpa using h.1.1
      simp only [Js.obj.injEq] at h2 ⊢
      simp [h1, h2, h3]
  | [], _ :: _, h => by simp [Js.beq, Js.beqFields] at h
  | _ :: _, [], h => by simp [Js.beq, Js.beqFields] at h

end

instance : DecidableEq Js := fun a b =>
  decidable_of_iff (Js.beq a b = true)
    ⟨Js.eq_of_beq a b, fun h => h ▸ Js.beq_refl a⟩

namespace Js

/-- JavaScript truthiness of a JSON-representable value: `null`, `false`,
`0` and `""` are falsy, everything else (including `[]` and `{}`) is
truthy. -/
def truthy : Js → Bool
  | .null => false
  | .bool b => b
  | .num n => n != 0
  | .str s => s ≠ ""
  | .arr _ => true
  | .obj _ => true

/-- The JavaScript `typeof` operator on JSON-representable values.
`typeof null`, `typeof []` and `typeof {}` are all `"object"`. -/
def jsTypeof : Js → String
  | .null => "object"
  | .bool _ => "boolean"
  | .num _ => "number"
  | .str _ => "string"
  | .arr _ => "object"
  | .obj _ => "object"

/-- A container in the spec's sense (glossary): "a value capable of
holding named or indexed children (object or array), as opposed to a
scalar". -/
def isContainer : Js → Bool
  | .arr _ => true
  | .obj _ => true
  | _ => false

end Js

/-- Decimal digits of a string as a natural number, `none` if the string
is empty or holds a non-digit. -/
def natOfDigits : List Char → Option Nat
  | [] => none
  | cs => go cs 0
where
  go : List Char → Nat → Option Nat
    | [], acc => some acc
    | c :: cs, acc =>
      if c.isDigit then go cs (acc * 10 + (c.toNat - '0'.toNat)) else none

/-- A canonical array-index string in the JavaScript sense: the decimal
representation of a natural number with no sign, no leading zeros (the
2^32 bound on indices is immaterial to the claims and elided). -/
def parseIndex (s : String) : Option Nat :=
  match natOfDigits s.toList with
  | some n => if Nat.repr n = s then some n else none
  | none => none

namespace Js

/-- `Object.prototype.hasOwnProperty.call(v, key)` on a JSON-representable
value: own keys of objects; canonical indices below the length and
`"length"` for arrays; character indices below the length and `"length"`
for strings (primitives are boxed by the call); no own properties on
numbers, booleans and `null`. -/
def hasOwnProp : Js → String → Bool
  | .obj fields, key => fields.any (·.1 = key)
  | .arr elems, key =>
    key = "length" ||
      (match parseIndex key with
       | some i => i < elems.length
       | none => false)
  | .str s, key =>
    key = "length" ||
      (match parseIndex key with
       | some i => i < s.length
       | none => false)
  | _, _ => false

/-- Property read `v[key]`, used by the source only under a successful
`hasOwnProp` guard; the `.null` results outside that guard are inert
defaults. -/
def getProp : Js → String → Js
  | .obj fields, key => (fields.lookup key).getD .null
  | .arr elems, key =>
    if key = "length" then .num elems.length
    else
      match parseIndex key with
      | some i => elems[i]?.getD .null
      | none => .null
  | .str s, key =>
    if key = "length" then .num s.length
    else
      match parseIndex key with
      | some i => .str (String.mk [s.toList.getD i ' '])
      | none => .null
  | _, _ => .null

end Js

/-- One iteration of the `getJsonPart` loop:
`if (value && hasOwn.call(value, key)) value = value[key]; else return undefined;`
— the early `return undefined` is rendered by an absorbing `none`
accumulator. -/
def getStep (acc : Option Js) (key : String) : Option Js :=
  match acc with
  | none => none
  | some value =>
    if value.truthy && value.hasOwnProp key then some (value.getProp key)
    else none

/-- `getJsonPart(json, keys)` from the source: walk the keys with the
loop `for (key of keys)`, one `getStep` per key. -/
def getJsonPart (json : Js) (keys : List String) : Option Js :=
  keys.foldl getStep (some json)

/-- `getStatName()` from the source, with the wall-clock month (1-indexed,
`now.getMonth() + 1`) and year (`now.getFullYear()`) made explicit inputs:
`if (month < 10) month = '0' + month; return monthStr.year.json`. -/
def getStatName (month year : Nat) : String :=
  (if month < 10 then "0" ++ Nat.repr month else Nat.repr month)
    ++ "." ++ Nat.repr year ++ ".json"

/-- Modelled from the spec's words (§4.3 Period Key Deriver), for the
refinement comparison of claim C6: "computes month = now.month
(1-indexed), zero-pads to two digits, concatenates as \"MM.YYYY\" with
four-digit year". -/
def specPeriodKey (month year : Nat) : String :=
  (if month < 10 then "0" ++ Nat.repr month else Nat.repr month)
    ++ "." ++ Nat.repr year

/-! ### A model of the platform's `JSON.parse` / `JSON.stringify`

The source relies on the JavaScript built-ins `JSON.parse` and
`JSON.stringify`; they are not repository code, so they are modelled here
by an executable parser/printer pair over `Js`.  Restrictions (noted in
the header): numbers are integers (a fraction or exponent part is a parse
failure), and `\uXXXX` string escapes are a parse failure. -/

/-- Whitespace characters accepted between JSON tokens. -/
def isJsonWs (c : Char) : Bool :=
  c = ' ' || c = '\t' || c = '\n' || c = '\r'

/-- Drop leading JSON whitespace. -/
def skipWs (cs : List Char) : List Char :=
  cs.dropWhile isJsonWs

/-- Parse the body of a JSON string literal (the opening quote already
consumed), returning the decoded characters and the rest of the input.
Raw control characters are rejected, as `JSON.parse` does. -/
def parseStringBody : List Char → Option (List Char × List Char)
  | [] => none
  | '"' :: rest => some ([], rest)
  | '\\' :: e :: rest =>
    (match e with
     | '"' => some '"'
     | '\\' => some '\\'
     | '/' => some '/'
     | 'n' => some '\n'
     | 't' => some '\t'
     | 'r' => some '\r'
     | 'b' => some '\x08'
     | 'f' => some '\x0c'
     | _ => none).bind fun c =>
      (parseStringBody rest).map fun (cs, rem) => (c :: cs, rem)
  | c :: rest =>
    if c.toNat < 32 then none
    else (parseStringBody rest).map fun (cs, rem) => (c :: cs, rem)

/-- Parse the digit part of a JSON integer: a single `0`, or a nonzero
digit followed by any further digits (JSON forbids leading zeros). -/
def parseDigits : List Char → Option (Nat × List Char)
  | '0' :: rest => some (0, rest)
  | c :: rest =>
    if c.isDigit && c ≠ '0' then
      let more := rest.takeWhile Char.isDigit
      match natOfDigits (c :: more) with
      | some n => some (n, rest.dropWhile Char.isDigit)
      | none => none
    else none
  | [] => none

/-- Put an earlier object binding `(k, v)` in front of the later fields
`fs`, except that a later binding for `k` wins while keeping the earlier
position, as in `JSON.parse`. -/
def overrideField (k : String) (v : Js) (fs : List (String × Js)) :
    List (String × Js) :=
  match fs.lookup k with
  | some w => (k, w) :: fs.filter (·.1 ≠ k)
  | none => (k, v) :: fs

mutual

/-- Parse one JSON value (after which a caller checks what follows). -/
def parseValue : Nat → List Char → Option (Js × List Char)
  | 0, _ => none
  | fuel + 1, cs =>
    match skipWs cs with
    | 'n' :: 'u' :: 'l' :: 'l' :: rest => some (.null, rest)
    | 't' :: 'r' :: 'u' :: 'e' :: rest => some (.bool true, rest)
    | 'f' :: 'a' :: 'l' :: 's' :: 'e' :: rest => some (.bool false, rest)
    | '"' :: rest =>
      (parseStringBody rest).map fun (cs, rem) => (.str (String.mk cs), rem)
    | '-' :: rest =>
      (parseDigits rest).map fun (n, rem) => (.num (-(n : Int)), rem)
    | '[' :: rest =>
      (match skipWs rest with
       | ']' :: rem => some (.arr [], rem)
       | other => (parseElems fuel other).map fun (es, rem) => (.arr es, rem))
    | '{' :: rest =>
      (match skipWs rest with
       | '}' :: rem => some (.obj [], rem)
       | other => (parseFields fuel other).map fun (fs, rem) => (.obj fs, rem))
    | c :: rest =>
      if c.isDigit then
        (parseDigits (c :: rest)).map fun (n, rem) => (.num (n : Int), rem)
      else none
    | [] => none

/-- Parse the elements of a non-empty JSON array up to the closing `]`. -/
def parseElems : Nat → List Char → Option (List Js × List Char)
  | 0, _ => none
  | fuel + 1, cs =>
    (parseValue fuel cs).bind fun (v, rest) =>
      match skipWs rest with
      | ',' :: more => (parseElems fuel more).map fun (es, rem) => (v :: es, rem)
      | ']' :: rem => some ([v], rem)
      | _ => none

/-- Parse the fields of a non-empty JSON object up to the closing `}`.
A repeated key overwrites the earlier binding in place, as `JSON.parse`
does. -/
def parseFields : Nat → List Char → Option (List (String × Js) × List Char)
  | 0, _ => none
  | fuel + 1, cs =>
    match skipWs cs with
    | '"' :: rest =>
      (parseStringBody rest).bind fun (kcs, rem) =>
        match skipWs rem with
        | ':' :: more =>
          (parseValue fuel more).bind fun (v, rest2) =>
            match skipWs rest2 with
            | ',' :: more2 =>
              (parseFields fuel more2).map fun (fs, rem2) =>
                (overrideField (String.mk kcs) v fs, rem2)
            | '}' :: rem2 => some ([(String.mk kcs, v)], rem2)
            | _ => none
        | _ => none
    | _ => none

end

/-- The model of `JSON.parse(text)`: parse one value surrounded by
whitespace only; anything else (trailing input included) is a parse
failure (`none`, standing for the thrown `SyntaxError`). -/
def jsonParse (text : String) : Option Js :=
  let cs := text.toList
  (parseValue (cs.length + 1) cs).bind fun (v, rest) =>
    match skipWs rest with
    | [] => some v
    | _ => none

/-- Escape one character for a JSON string literal, as
`JSON.stringify` does. -/
def escapeChar (c : Char) : List Char :=
  if c = '"' then ['\\', '"']
  else if c = '\\' then ['\\', '\\']
  else if c = '\n' then ['\\', 'n']
  else if c = '\t' then ['\\', 't']
  else if c = '\r' then ['\\', 'r']
  else if c = '\x08' then ['\\', 'b']
  else if c = '\x0c' then ['\\', 'f']
  else if c.toNat < 32 then
    ['\\', 'u', '0', '0',
     Nat.digitChar (c.toNat / 16), Nat.digitChar (c.toNat % 16)]
  else [c]

/-- A JSON string literal for `s`. -/
def quoteString (s : String) : String :=
  "\"" ++ String.mk (s.toList.flatMap escapeChar) ++ "\""

mutual

/-- The model of `JSON.stringify(value)` (no spacing argument, as in the
source): the compact serialization.  Non-index own properties of arrays
never exist in `Js` (a `Js.arr` is just its elements), matching what
`JSON.stringify` keeps. -/
def Js.stringify : Js → String
  | .null => "null"
  | .bool true => "true"
  | .bool false => "false"
  | .num n => n.repr
  | .str s => quoteString s
  | .arr elems => "[" ++ Js.stringifyElems elems ++ "]"
  | .obj fields => "\x7b" ++ Js.stringifyFields fields ++ "\x7d"

/-- Comma-separated serialization of array elements. -/
def Js.stringifyElems : List Js → String
  | [] => ""
  | [v] => v.stringify
  | v :: vs => v.stringify ++ "," ++ Js.stringifyElems vs

/-- Comma-separated serialization of object fields. -/
def Js.stringifyFields : List (String × Js) → String
  | [] => ""
  | [(k, v)] => quoteString k ++ ":" ++ v.stringify
  | (k, v) :: fs => quoteString k ++ ":" ++ v.stringify ++ "," ++ Js.stringifyFields fs

end

/-! ### File-system state and the JSON document store -/

/-- The file-system state the program touches: named file contents plus
the existence of the `./stats/` directory. -/
structure FS where
  files : List (String × String)
  statsDir : Bool
  deriving DecidableEq

/-- `CONFIG` from the source. -/
def CONFIG : String := "config.json"

/-- `STATS` from the source. -/
def STATS : String := "./stats/"

/-- `UPDATE` from the source. -/
def UPDATE : String := "update"

/-- `SET` from the source. -/
def SET : String := "set"

/-- `GET` from the source. -/
def GET : String := "get"

/-- Content of a named file, `none` when the file does not exist. -/
def lookupFile (fs : FS) (name : String) : Option String :=
  fs.files.lookup name

/-- Store a file's content, replacing an existing entry in place. -/
def setFile (files : List (String × String)) (name content : String) :
    List (String × String) :=
  if files.any (·.1 = name) then
    files.map fun kv => if kv.1 = name then (name, content) else kv
  else files ++ [(name, content)]

/-- `writeJSON(name, data)` from the source:
`fs.writeFileSync(name, JSON.stringify(data))`. -/
def writeJSON (fs : FS) (name : String) (data : Js) : FS :=
  { fs with files := setFile fs.files name data.stringify }

/-- `readJSON(name)` from the source:
`try { return JSON.parse(fs.readFileSync(name, 'utf8')); } catch(e) { return null; }`.
A missing file makes `readFileSync` throw and a malformed content makes
`JSON.parse` throw; both land in the same `catch` and return the same
JavaScript `null`. -/
def readJSON (fs : FS) (name : String) : Js :=
  match lookupFile fs name with
  | none => .null
  | some content => (jsonParse content).getD .null

/-! ### The `get` and `set` command handlers -/

/-- JavaScript `s.split('.')` (single-character separator, no regex):
always at least one piece, keeps empty pieces. -/
def splitDotsAux : List Char → List Char → List String
  | [], acc => [String.mk acc.reverse]
  | c :: rest, acc =>
    if c = '.' then String.mk acc.reverse :: splitDotsAux rest []
    else splitDotsAux rest (c :: acc)

/-- `args[0].split('.')` from the source. -/
def splitDots (s : String) : List String :=
  splitDotsAux s.toList []

/-- The value the `set` handler stores:
`try { value = JSON.parse(args[1]); } catch(e) { value = args[1]; }`. -/
def decodeValue (raw : String) : Js :=
  (jsonParse raw).getD (.str raw)

/-- Replace or append elements so that index `i` holds `v`, as the
assignment `arr[i] = v` followed by persistence does: writing beyond the
current length creates holes, which `JSON.stringify` serializes as
`null`. -/
def setElem (elems : List Js) (i : Nat) (v : Js) : List Js :=
  if i < elems.length then elems.set i v
  else elems ++ List.replicate (i - elems.length) .null ++ [v]

/-- Resize a list to length `n` as the assignment `arr.length = n` does
(truncation, or extension with holes that persist as `null`). -/
def resizeElems (elems : List Js) (n : Nat) : List Js :=
  if n ≤ elems.length then elems.take n
  else elems ++ List.replicate (n - elems.length) .null

/-- Insert or update an object binding as the assignment `obj[key] = v`
does, viewed through JSON persistence: an existing own binding is updated
in place, a fresh key is appended — except `"__proto__"`, where plain
objects inherit an accessor from `Object.prototype`, so the assignment
creates no own property (it can only retarget the prototype, which is
invisible to `JSON.stringify`). -/
def insertField (fields : List (String × Js)) (key : String) (v : Js) :
    List (String × Js) :=
  if fields.any (·.1 = key) then
    fields.map fun kv => if kv.1 = key then (key, v) else kv
  else if key = "__proto__" then fields
  else fields ++ [(key, v)]

/-- The persisted effect of the assignment `parent[key] = value` on the
resolved mutation target.  `none` models the `RangeError` thrown by an
invalid `arr.length` assignment (the source does not catch it, so no
write happens; the JavaScript `ToUint32` coercion of non-numeric length
values is conservatively modelled as that same error — no claim relies on
those exotic lengths).  On a primitive target the assignment would throw
in strict mode, but the `set` handler's type check makes that
unreachable. -/
def Js.setProp : Js → String → Js → Option Js
  | .obj fields, key, v => some (.obj (insertField fields key v))
  | .arr elems, key, v =>
    if key = "length" then
      match v with
      | .num n => if 0 ≤ n then some (.arr (resizeElems elems n.toNat)) else none
      | _ => none
    else
      (match parseIndex key with
       | some i => some (.arr (setElem elems i v))
       -- a non-index key becomes a non-index own property of the array,
       -- which `JSON.stringify` drops: the persisted array is unchanged
       | none => some (.arr elems))
  | v, _, _ => some v

/-- One rebuild step of the functional rendering of in-place mutation:
the child at the own property `k` is replaced by its mutated version.
On an array, mutating the copied primitive returned for `"length"` (or
any child of a primitive) cannot affect the parent, hence the identity
branches; successful assignments never take them. -/
def Js.updateOwn : Js → String → Js → Js
  | .obj fields, key, child =>
    .obj (fields.map fun kv => if kv.1 = key then (key, child) else kv)
  | .arr elems, key, child =>
    (match parseIndex key with
     | some i => .arr (elems.set i child)
     | none => .arr elems)
  | v, _, _ => v

/-- Functional rendering of `obj[key] = value` where `obj` is the node
of `doc` resolved by walking `ks`: the document is rebuilt along the
resolved path with the mutated node in place of the old one. -/
def rebuildAt (doc : Js) : List String → Js → Js
  | [], parent' => parent'
  | k :: ks, parent' => doc.updateOwn k (rebuildAt (doc.getProp k) ks parent')

/-- Result of the `set` handler: the diagnostics-and-return branches, the
uncaught `RangeError`, or the successful assignment with the document it
persists. -/
inductive SetResult where
  | notEnoughArgs : SetResult
  | invalidTarget : SetResult
  | rangeError : SetResult
  | wrote : Js → SetResult
  deriving DecidableEq

/-- `COMMANDS[SET]` from the source: check arity, split the dotted path,
pop the final key, resolve the parent with `getJsonPart`, reject with the
`Cannot set key ...` diagnostic unless `obj && typeof obj === 'object'`,
decode the raw value, assign, persist.  The resolved-`undefined` case and
the falsy/non-object case are the source's single `!obj || typeof obj
!== 'object'` test. -/
def setCmd (args : List String) (config : Js) : SetResult :=
  match args with
  | a0 :: a1 :: _ =>
    let keys := splitDots a0
    let parentKeys := keys.dropLast
    let key := keys.getLastD ""
    (match getJsonPart config parentKeys with
     | none => .invalidTarget
     | some parent =>
       if parent.truthy && (parent.jsTypeof = "object") then
         match parent.setProp key (decodeValue a1) with
         | some parent' => .wrote (rebuildAt config parentKeys parent')
         | none => .rangeError
       else .invalidTarget)
  | _ => .notEnoughArgs

/-- `COMMANDS[GET]` from the source: keys are
`args[0] === undefined ? [] : args[0].split('.')`; the handler prints
`JSON.stringify(getJsonPart(config, keys))`.  The returned `Option Js` is
the resolved value, `none` when the resolution produced `undefined`
(printed as the literal text `undefined`). -/
def getCmd (args : List String) (config : Js) : Option Js :=
  let keys := match args with
    | [] => []
    | a :: _ => splitDots a
  getJsonPart config keys

/-! ### The dispatcher `npmStatistic` and the update callback -/

/-- What one invocation did after the bootstrap: aborted on a falsy
config, aborted on an unknown command, or ran one of the three
handlers. -/
inductive Outcome where
  | wrongConfig : Outcome
  | unknownCommand : String → Outcome
  | ranGet : Option Js → Outcome
  | ranSet : SetResult → Outcome
  | ranUpdate : List (Option Js) → Outcome
  | updateCrash : Outcome
  deriving DecidableEq

/-- `COMMANDS[UPDATE]` from the source:
`const packages = config.packages || [], names = packages.map(pack => pack.name)`,
then one HTTP request per name (the requests and their asynchronous
callbacks are outside this state transition; `updateCallback` is modelled
separately).  A truthy non-array `config.packages` has no `.map` and a
`null` element has no `.name`, so those dereferences throw. -/
def updateOutcome (config : Js) : Outcome :=
  let packagesVal :=
    if config.hasOwnProp "packages" then config.getProp "packages" else .null
  if packagesVal.truthy then
    match packagesVal with
    | .arr elems =>
      if elems.contains .null then .updateCrash
      else .ranUpdate (elems.map fun e =>
        match e with
        | .obj fields => fields.lookup "name"
        | _ => none)
    | _ => .updateCrash
  else .ranUpdate []

/-- The bootstrap prefix of every invocation: create `config.json` as the
empty object when absent, create the `./stats/` directory when absent. -/
def bootstrapFS (fs : FS) : FS :=
  let fs1 :=
    if (lookupFile fs CONFIG).isSome then fs else writeJSON fs CONFIG (.obj [])
  if fs1.statsDir then fs1 else { fs1 with statsDir := true }

/-- `npmStatistic(args)` from the source: default the command to
`update` when `args[0]` is falsy (absent or empty), shift it off, run the
bootstrap, load the config, abort with the `Wrong config format`
diagnostic when the loaded value is falsy, abort with the
`Unknown command` diagnostic when the command is not an own key of
`COMMANDS`, otherwise run the handler (for `set`, persisting the document
on the success branch). -/
def npmStatistic (fs : FS) (args : List String) : FS × Outcome :=
  let command := match args with
    | [] => UPDATE
    | a :: _ => if a = "" then UPDATE else a
  let rest := args.tail
  let fs2 := bootstrapFS fs
  let config := readJSON fs2 CONFIG
  if ¬config.truthy then (fs2, .wrongConfig)
  else if command = GET then (fs2, .ranGet (getCmd rest config))
  else if command = SET then
    match setCmd rest config with
    | .wrote config' => (writeJSON fs2 CONFIG config', .ranSet (.wrote config'))
    | r => (fs2, .ranSet r)
  else if command = UPDATE then (fs2, updateOutcome config)
  else (fs2, .unknownCommand command)

/-- `updateCallback(res)` from the source, with the wall-clock month and
year of `getStatName` made explicit inputs.  The response is only fed to
the stub `parseRes` (a constant, unused afterwards); the callback then
seeds the period's statistics file when absent and loads it
(`const stat = readJSON(statName), packages = stat.packages;` — the
loaded document is where the source stops). -/
def updateCallback (fs : FS) (month year : Nat) : FS × Js :=
  let statName := STATS ++ getStatName month year
  let fs' :=
    if (lookupFile fs statName).isSome then fs
    else writeJSON fs statName (.obj [("packages", .arr [])])
  (fs', readJSON fs' statName)

/-- The final keys under which the assignment `parent[key] = value`
creates (or updates) a persisted own property holding exactly the
assigned value: any key of an object except a fresh `"__proto__"`, and a
canonical index of an array. -/
def goodTarget (parent : Js) (key : String) : Prop :=
  (∃ fields, parent = .obj fields ∧
    (fields.any (·.1 = key) = true ∨ key ≠ "__proto__")) ∨
  (∃ elems i, parent = .arr elems ∧ parseIndex key = some i)

/-- The final keys under which the assignment `parent[key] = value`
touches nothing but that one binding: any key of an object, and a
canonical index of an array that is within the current length (writing
beyond the length also fills the intervening holes, and `length` itself
resizes). -/
def frameTarget (parent : Js) (key : String) : Prop :=
  (∃ fields, parent = .obj fields) ∨
  (∃ elems i, parent = .arr elems ∧ parseIndex key = some i ∧ i < elems.length)

/-! ## Basic lemmas about the path resolver -/

theorem getJsonPart_nil (v : Js) : getJsonPart v [] = some v := rfl

theorem foldl_getStep_none (keys : List String) :
    keys.foldl getStep none = none := by
  induction keys with
  | nil => rfl
  | cons k ks ih => simpa [List.foldl_cons, getStep] using ih

theorem getJsonPart_cons (v : Js) (k : String) (ks : List String) :
    getJsonPart v (k :: ks) =
      if v.truthy && v.hasOwnProp k then getJsonPart (v.getProp k) ks
      else none := by
  by_cases h : (v.truthy && v.hasOwnProp k) = true
  · simp [getJsonPart, List.foldl_cons, getStep, h]
  · simp only [Bool.not_eq_true] at h
    simp only [getJsonPart, List.foldl_cons, getStep, h, Bool.false_eq_true,
      if_false, if_neg]
    exact foldl_getStep_none ks

theorem getJsonPart_append (v : Js) (ks ls : List String) :
    getJsonPart v (ks ++ ls) =
      (getJsonPart v ks).bind fun w => getJsonPart w ls := by
  induction ks generalizing v with
  | nil => simp [getJsonPart_nil]
  | cons k ks ih =>
    rw [List.cons_append, getJsonPart_cons, getJsonPart_cons]
    by_cases h : (v.truthy && v.hasOwnProp k) = true
    · simp [h, ih]
    · simp only [Bool.not_eq_true] at h
      simp [h, foldl_getStep_none]

/-! ## Lemmas about the file store -/

theorem lookup_map_replace {β : Type} (files : List (String × β)) (name : String)
    (content : β) (h : files.any (·.1 = name) = true) :
    (files.map fun kv => if kv.1 = name then (name, content) else kv).lookup name
      = some content := by
  induction files with
  | nil => simp at h
  | cons kv files ih =>
    simp only [List.map_cons]
    by_cases hk : kv.1 = name
    · rw [if_pos hk]
      simp [List.lookup]
    · rw [if_neg hk]
      have hh : files.any (·.1 = name) = true := by
        simp only [List.any_cons, Bool.or_eq_true, decide_eq_true_eq] at h
        exact h.resolve_left hk
      have hne : (name == kv.1) = false := by
        simp only [beq_eq_false_iff_ne]
        exact fun e => hk e.symm
      simp only [List.lookup, hne]
      exact ih hh

theorem lookup_eq_none_of_not_any {β : Type} (files : List (String × β)) (name : String)
    (h : files.any (·.1 = name) = false) :
    files.lookup name = none := by
  induction files with
  | nil => rfl
  | cons kv files ih =>
    simp only [List.any_cons, Bool.or_eq_false_iff, decide_eq_false_iff_not] at h
    have hne : (name == kv.1) = false := by
      simp only [beq_eq_false_iff_ne]
      exact fun e => h.1 e.symm
    simp only [List.lookup, hne]
    exact ih h.2

theorem lookup_append_right {β : Type} (files rest : List (String × β))
    (name : String) (h : files.lookup name = none) :
    (files ++ rest).lookup name = rest.lookup name := by
  induction files with
  | nil => rfl
  | cons kv files ih =>
    cases hbeq : (name == kv.1) with
    | true => exact absurd (by simpa only [List.lookup, hbeq] using h) (by simp)
    | false =>
      simp only [List.lookup, hbeq] at h
      simp only [List.cons_append, List.lookup, hbeq]
      exact ih h

theorem lookup_setFile_self (files : List (String × String)) (name content : String) :
    (setFile files name content).lookup name = some content := by
  unfold setFile
  by_cases h : files.any (·.1 = name) = true
  · simp only [h, if_true]
    exact lookup_map_replace files name content h
  · simp only [Bool.not_eq_true] at h
    simp only [h, Bool.false_eq_true, if_false]
    rw [lookup_append_right _ _ _ (lookup_eq_none_of_not_any files name h)]
    simp [List.lookup]

theorem lookupFile_writeJSON_self (fs : FS) (name : String) (data : Js) :
    lookupFile (writeJSON fs name data) name = some data.stringify :=
  lookup_setFile_self fs.files name data.stringify

example : getStatName 3 2024 = "03.2024.json" := by decide
example : getJsonPart (.obj [("a", .str "xy")]) ["a", "0"] = some (.str "x") := by decide
example : getJsonPart (.obj [("a", .str "xy")]) ["a", "length"] = some (.num 2) := by decide
example : getJsonPart (.obj [("a", .num 5)]) ["a", "b"] = none := by decide

/-! ## Claim C1: the path resolver -/

/-- C1 (counterexample).  The claim says `getJsonPart` descends only when
the current value is a container (object/array — the spec's glossary
opposes containers to scalars) owning the key, returning `undefined`
otherwise.  But on the document `{"a": "xy"}` and keys `["a", "0"]` the
walk reaches the string `"xy"` — not a container — and still descends
(boxed strings own their character indices), returning `"x"` instead of
the `undefined` the claim requires. -/
theorem c1_resolver_counterexample :
    getJsonPart (.obj [("a", .str "xy")]) ["a"] = some (.str "xy") ∧
    Js.isContainer (.str "xy") = false ∧
    getJsonPart (.obj [("a", .str "xy")]) ["a", "0"] = some (.str "x") := by
  refine ⟨by decide, by decide, by decide⟩

/-- C1 (amended).  `getJsonPart` walks the document one key at a time,
descending exactly when the current value is truthy and owns the key —
which holds for containers (objects and arrays) and also for nonempty
strings at their character indices and `"length"` — and returns the
`undefined` sentinel (`none`) immediately otherwise; it is a total
function (never throws), and on the empty key sequence it returns the
document itself. -/
theorem c1_resolver_amended :
    (∀ v : Js, getJsonPart v [] = some v) ∧
    (∀ (v : Js) (k : String) (ks : List String),
      getJsonPart v (k :: ks) =
        if v.truthy && v.hasOwnProp k then getJsonPart (v.getProp k) ks
        else none) ∧
    (∀ (v : Js) (k : String), (v.truthy && v.hasOwnProp k) = true →
      v.isContainer = true ∨ ∃ s, v = .str s ∧ s ≠ "") := by
  refine ⟨getJsonPart_nil, getJsonPart_cons, fun v k h => ?_⟩
  rcases v with _ | b | n | s | es | fs
  · simp [Js.truthy] at h
  · simp [Js.hasOwnProp] at h
  · simp [Js.hasOwnProp] at h
  · rw [Bool.and_eq_true] at h
    exact Or.inr ⟨s, rfl, by simpa [Js.truthy] using h.1⟩
  · exact Or.inl rfl
  · exact Or.inl rfl

/-- C1 (witness for the amended theorem): the descent condition holds for
the nonempty string `"xy"` at key `"0"`, and the theorem places `"xy"`
in the container-or-nonempty-string disjunction. -/
theorem c1_resolver_amended_witness :
    Js.isContainer (.str "xy") = true ∨ ∃ s, Js.str "xy" = .str s ∧ s ≠ "" :=
  c1_resolver_amended.2.2 (.str "xy") "0" (by decide)

/-! ## Claims about the dispatcher and the `set` failure branch -/

theorem truthy_object_iff_container (p : Js) :
    (p.truthy && decide (p.jsTypeof = "object")) = p.isContainer := by
  rcases p with _ | b | n | s | es | fl <;>
    simp [Js.truthy, Js.jsTypeof, Js.isContainer]

theorem bootstrapFS_files_of_present (fs : FS) (h : (lookupFile fs CONFIG).isSome = true) :
    (bootstrapFS fs).files = fs.files := by
  unfold bootstrapFS
  simp only [h, if_true]
  by_cases hs : fs.statsDir <;> simp [hs]

theorem readJSON_bootstrapFS (fs : FS) (c : String) (config : Js)
    (hfile : lookupFile fs CONFIG = some c) (hparse : jsonParse c = some config) :
    readJSON (bootstrapFS fs) CONFIG = config := by
  have hboot : lookupFile (bootstrapFS fs) CONFIG = some c := by
    unfold lookupFile
    rw [bootstrapFS_files_of_present fs (by simp [hfile])]
    exact hfile
  simp only [readJSON, hboot, hparse, Option.getD_some]

theorem setCmd_unfold (pathStr raw : String) (config : Js) :
    setCmd [pathStr, raw] config =
      (match getJsonPart config ((splitDots pathStr).dropLast) with
       | none => .invalidTarget
       | some parent =>
         if parent.truthy && (parent.jsTypeof = "object") then
           match parent.setProp ((splitDots pathStr).getLastD "") (decodeValue raw) with
           | some parent' =>
             .wrote (rebuildAt config ((splitDots pathStr).dropLast) parent')
           | none => .rangeError
         else .invalidTarget) := rfl

theorem npmStatistic_set_unfold (fs : FS) (pathStr raw : String) :
    npmStatistic fs ["set", pathStr, raw] =
      (if ¬(readJSON (bootstrapFS fs) CONFIG).truthy then
        (bootstrapFS fs, .wrongConfig)
      else
        match setCmd [pathStr, raw] (readJSON (bootstrapFS fs) CONFIG) with
        | .wrote config' =>
          (writeJSON (bootstrapFS fs) CONFIG config', .ranSet (.wrote config'))
        | r => (bootstrapFS fs, .ranSet r)) := rfl

theorem updateOutcome_ne_wrongConfig (config : Js) :
    updateOutcome config ≠ .wrongConfig := by
  intro h
  simp only [updateOutcome] at h
  repeat' split at h
  all_goals simp at h

/-! ## Claim C3: `set` on an invalid mutation target -/

/-- C3 (confirmed).  For every configuration document (an existing,
truthy-parsing config file) and every dotted path whose parent segment
sequence resolves to `undefined` or to a non-container value, the `set`
command takes the `Cannot set key ...` diagnostic branch — the source's
`!obj || typeof obj !== 'object'` test fires exactly on those two cases —
performs no assignment and no write, and the configuration file keeps its
exact previous content. -/
theorem c3_set_invalid_target (fs : FS) (pathStr raw c : String) (config : Js)
    (hfile : lookupFile fs CONFIG = some c)
    (hparse : jsonParse c = some config)
    (htruthy : config.truthy = true)
    (hbad : getJsonPart config ((splitDots pathStr).dropLast) = none ∨
      ∃ p, getJsonPart config ((splitDots pathStr).dropLast) = some p ∧
        p.isContainer = false) :
    npmStatistic fs ["set", pathStr, raw] = (bootstrapFS fs, .ranSet .invalidTarget) ∧
    lookupFile (npmStatistic fs ["set", pathStr, raw]).1 CONFIG = some c := by
  have hread := readJSON_bootstrapFS fs c config hfile hparse
  have hset : setCmd [pathStr, raw] config = .invalidTarget := by
    rw [setCmd_unfold]
    rcases hbad with hnone | ⟨p, hp, hpc⟩
    · rw [hnone]
    · rw [hp]
      have hcond : (p.truthy && decide (p.jsTypeof = "object")) = false := by
        rw [truthy_object_iff_container]; exact hpc
      simp only [hcond, Bool.false_eq_true, if_false]
  have hnpm : npmStatistic fs ["set", pathStr, raw]
      = (bootstrapFS fs, .ranSet .invalidTarget) := by
    rw [npmStatistic_set_unfold, hread, hset]
    simp [htruthy]
  refine ⟨hnpm, ?_⟩
  rw [hnpm]
  unfold lookupFile
  rw [bootstrapFS_files_of_present fs (by simp [hfile])]
  exact hfile

/-- C3 (witness): config `{"a":5}`, path `a.b` — the parent resolves to
the scalar `5` — and the file keeps its bytes. -/
theorem c3_set_invalid_target_witness :
    npmStatistic ⟨[("config.json", "\x7b\"a\":5\x7d")], true⟩ ["set", "a.b", "1"]
      = (bootstrapFS ⟨[("config.json", "\x7b\"a\":5\x7d")], true⟩, .ranSet .invalidTarget) ∧
    lookupFile (npmStatistic ⟨[("config.json", "\x7b\"a\":5\x7d")], true⟩
        ["set", "a.b", "1"]).1 CONFIG = some "\x7b\"a\":5\x7d" :=
  c3_set_invalid_target ⟨[("config.json", "\x7b\"a\":5\x7d")], true⟩ "a.b" "1"
    "\x7b\"a\":5\x7d" (.obj [("a", .num 5)]) (by decide) (by decide) (by decide)
    (Or.inr ⟨.num 5, by decide, by decide⟩)

/-! ## Claim C4: abort on a malformed configuration -/

/-- C4 (counterexample).  The claim says any config content that is not a
top-level object aborts the invocation with no handler run.  But the
source only tests JavaScript falsiness (`if (!config) return`): with
`config.json` holding `5` — a valid JSON value that is not an object —
the invocation does not abort, and the `get` handler runs (printing
`undefined` for the missing path `x`). -/
theorem c4_wrong_config_counterexample :
    jsonParse "5" = some (.num 5) ∧
    Js.isContainer (.num 5) = false ∧
    npmStatistic ⟨[("config.json", "5")], true⟩ ["get", "x"]
      = (⟨[("config.json", "5")], true⟩, .ranGet none) ∧
    (npmStatistic ⟨[("config.json", "5")], true⟩ ["get", "x"]).2 ≠ .wrongConfig := by
  refine ⟨by decide, by decide, by decide, by decide⟩

/-- C4 (amended).  The invocation aborts with the `Wrong config format`
diagnostic — before any handler runs, leaving the file system exactly as
the bootstrap made it — if and only if the loaded configuration value is
JavaScript-falsy (unparseable or missing content reads as `null`, and the
top-level documents `null`, `false`, `0` and `""` are falsy); truthy
non-object top-level documents such as nonzero numbers are not
rejected. -/
theorem c4_wrong_config_amended (fs : FS) (args : List String) :
    ((npmStatistic fs args).2 = .wrongConfig ↔
      (readJSON (bootstrapFS fs) CONFIG).truthy = false) ∧
    ((readJSON (bootstrapFS fs) CONFIG).truthy = false →
      npmStatistic fs args = (bootstrapFS fs, .wrongConfig)) := by
  have habort : (readJSON (bootstrapFS fs) CONFIG).truthy = false →
      npmStatistic fs args = (bootstrapFS fs, .wrongConfig) := by
    intro h
    simp only [npmStatistic]
    rw [if_pos (by simp [h])]
  have hne : (readJSON (bootstrapFS fs) CONFIG).truthy = true →
      (npmStatistic fs args).2 ≠ .wrongConfig := by
    intro ht h
    simp only [npmStatistic] at h
    rw [if_neg (by simp [ht])] at h
    generalize (match args with
      | [] => UPDATE
      | a :: _ => if a = "" then UPDATE else a) = cmd at h
    by_cases hg : cmd = GET
    · rw [if_pos hg] at h; simp at h
    · rw [if_neg hg] at h
      by_cases hs : cmd = SET
      · rw [if_pos hs] at h
        rcases hsc : setCmd args.tail (readJSON (bootstrapFS fs) CONFIG) with
            _ | _ | _ | c' <;>
          rw [hsc] at h <;> simp at h
      · rw [if_neg hs] at h
        by_cases hu : cmd = UPDATE
        · rw [if_pos hu] at h
          simp at h
          exact updateOutcome_ne_wrongConfig _ h
        · rw [if_neg hu] at h; simp at h
  constructor
  · constructor
    · intro h
      by_cases ht : (readJSON (bootstrapFS fs) CONFIG).truthy = true
      · exact absurd h (hne ht)
      · simpa using ht
    · intro h
      rw [habort h]
  · exact habort

/-- C4 (witness for the amended theorem): with config content `"0"`
(falsy number), the invocation aborts with the diagnostic and the file
system is exactly the bootstrap result. -/
theorem c4_wrong_config_amended_witness :
    npmStatistic ⟨[("config.json", "0")], true⟩ ["get", "x"]
      = (bootstrapFS ⟨[("config.json", "0")], true⟩, .wrongConfig) :=
  (c4_wrong_config_amended ⟨[("config.json", "0")], true⟩ ["get", "x"]).2 (by decide)

/-! ## Claim C8: unknown commands -/

/-- C8 (counterexample).  The claim says an unknown command aborts with
no file created or modified.  But the bootstrap runs before the command
check: invoking the unknown command `foo` on a fresh file system still
creates `config.json` (content `{}`) and the stats directory. -/
theorem c8_unknown_command_counterexample :
    lookupFile ⟨[], false⟩ CONFIG = none ∧
    npmStatistic ⟨[], false⟩ ["foo"]
      = (⟨[("config.json", "\x7b\x7d")], true⟩, .unknownCommand "foo") ∧
    lookupFile (npmStatistic ⟨[], false⟩ ["foo"]).1 CONFIG = some "\x7b\x7d" := by
  refine ⟨by decide, by decide, by decide⟩

/-- C8 (amended).  For every command name outside `{update, get, set}`
(and nonempty — an empty first argument is replaced by `update`), the
dispatcher reports the `Unknown command` diagnostic and stops: no handler
runs, and the file system is left exactly as the idempotent startup
bootstrap (create `config.json` as `{}` and the stats directory when
missing) made it — no other file is created or modified. -/
theorem c8_unknown_command_amended (fs : FS) (a : String) (rest : List String)
    (hne : a ≠ "") (hu : a ≠ UPDATE) (hg : a ≠ GET) (hs : a ≠ SET)
    (ht : (readJSON (bootstrapFS fs) CONFIG).truthy = true) :
    npmStatistic fs (a :: rest) = (bootstrapFS fs, .unknownCommand a) := by
  simp only [UPDATE, GET, SET] at hu hg hs
  simp only [npmStatistic]
  simp [hne, hu, hg, hs, ht, UPDATE, GET, SET]

/-- C8 (witness): the unknown command `frobnicate` on a bootstrapped file
system. -/
theorem c8_unknown_command_amended_witness :
    npmStatistic ⟨[("config.json", "\x7b\x7d")], true⟩ ["frobnicate"]
      = (bootstrapFS ⟨[("config.json", "\x7b\x7d")], true⟩, .unknownCommand "frobnicate") :=
  c8_unknown_command_amended ⟨[("config.json", "\x7b\x7d")], true⟩ "frobnicate" []
    (by decide) (by decide) (by decide) (by decide) (by decide)

/-! ## Claim C5: the JSON document store's read operation -/

/-- C5 (counterexample).  The claim says `readJSON` distinguishes a
missing file from malformed content.  But both `readFileSync` on a
missing file and `JSON.parse` on the malformed content `"{"` throw into
the same `catch (e) { return null; }`: both runs return the same `null`,
so the two outcomes are not distinct. -/
theorem c5_readJSON_counterexample :
    lookupFile ⟨[], false⟩ "config.json" = none ∧
    readJSON ⟨[], false⟩ "config.json" = .null ∧
    lookupFile ⟨[("config.json", "\x7b")], false⟩ "config.json" = some "\x7b" ∧
    jsonParse "\x7b" = none ∧
    readJSON ⟨[("config.json", "\x7b")], false⟩ "config.json" = .null := by
  refine ⟨by decide, by decide, by decide, by decide, by decide⟩

/-- C5 (amended).  `readJSON` tolerates both failure modes but collapses
them: a missing file yields `null`, and an existing file whose content
does not parse yields the very same `null` — the caller cannot tell the
two outcomes apart. -/
theorem c5_readJSON_amended (fs : FS) (name : String) :
    (lookupFile fs name = none → readJSON fs name = .null) ∧
    (∀ c, lookupFile fs name = some c → jsonParse c = none →
      readJSON fs name = .null) := by
  constructor
  · intro h; simp [readJSON, h]
  · intro c h hp; simp [readJSON, h, hp]

/-- C5 (witness): the amended theorem applied to a present-but-malformed
file and to a missing file. -/
theorem c5_readJSON_amended_witness :
    readJSON ⟨[("config.json", "\x7b")], false⟩ "config.json" = .null ∧
    readJSON ⟨[], false⟩ "config.json" = .null :=
  ⟨(c5_readJSON_amended ⟨[("config.json", "\x7b")], false⟩ "config.json").2 "\x7b"
      (by decide) (by decide),
    (c5_readJSON_amended ⟨[], false⟩ "config.json").1 (by decide)⟩

/-! ## Claim C6: the period-key derivation -/

/-- C6 (confirmed).  The statistics file name computed by `getStatName`
factors as the spec's period key (`"MM.YYYY"`, month 1-indexed and
zero-padded to two digits exactly when below 10) followed by `".json"`;
as a Lean function of the extracted month and year it is pure and
deterministic by construction, and on the claim's instances the period
key is `"03.2024"` for month 3, year 2024 and `"12.2024"` for month 12,
year 2024. -/
theorem c6_period_key :
    (∀ month year : Nat, getStatName month year = specPeriodKey month year ++ ".json") ∧
    specPeriodKey 3 2024 = "03.2024" ∧
    specPeriodKey 12 2024 = "12.2024" ∧
    specPeriodKey 9 1987 = "09.1987" ∧
    specPeriodKey 10 1987 = "10.1987" := by
  refine ⟨fun month year => ?_, by decide, by decide, by decide, by decide⟩
  simp only [getStatName, specPeriodKey, String.append_assoc]

/-! ## Claim C7: seeding of the statistics file -/

/-- C7 (confirmed).  When the statistics file for the period is absent,
`updateCallback` first creates it containing exactly the bytes
`{"packages":[]}` and then loads it, so the loaded statistics document is
the object `{packages: []}`: it has a `packages` array even when freshly
created. -/
theorem c7_stats_seeding (fs : FS) (month year : Nat)
    (habs : lookupFile fs (STATS ++ getStatName month year) = none) :
    lookupFile (updateCallback fs month year).1 (STATS ++ getStatName month year)
      = some "\x7b\"packages\":[]\x7d" ∧
    (updateCallback fs month year).2 = .obj [("packages", .arr [])] ∧
    (updateCallback fs month year).2.hasOwnProp "packages" = true ∧
    (updateCallback fs month year).2.getProp "packages" = .arr [] := by
  have hstr : (Js.obj [("packages", Js.arr [])]).stringify = "\x7b\"packages\":[]\x7d" := by
    decide
  have hparse : jsonParse "\x7b\"packages\":[]\x7d" = some (.obj [("packages", .arr [])]) := by
    decide
  have hw :
      lookupFile (writeJSON fs (STATS ++ getStatName month year)
          (.obj [("packages", .arr [])])) (STATS ++ getStatName month year)
        = some "\x7b\"packages\":[]\x7d" := by
    rw [lookupFile_writeJSON_self, hstr]
  simp only [updateCallback, habs, Option.isSome_none, Bool.false_eq_true, if_false]
  refine ⟨hw, ?_, ?_, ?_⟩ <;>
    simp [readJSON, hw, hparse, Js.hasOwnProp, Js.getProp, List.lookup]

/-- C7 (witness): a fresh file system, March 2024. -/
theorem c7_stats_seeding_witness :
    lookupFile (updateCallback ⟨[], true⟩ 3 2024).1 (STATS ++ getStatName 3 2024)
      = some "\x7b\"packages\":[]\x7d" ∧
    (updateCallback ⟨[], true⟩ 3 2024).2 = .obj [("packages", .arr [])] ∧
    (updateCallback ⟨[], true⟩ 3 2024).2.hasOwnProp "packages" = true ∧
    (updateCallback ⟨[], true⟩ 3 2024).2.getProp "packages" = .arr [] :=
  c7_stats_seeding ⟨[], true⟩ 3 2024 (by decide)

/-! ## Machinery for the mutation claims (C2, C9, C10) -/

theorem lookup_map_replace_other {β : Type} (files : List (String × β))
    (name q : String) (content : β) (hq : q ≠ name) :
    (files.map fun kv => if kv.1 = name then (name, content) else kv).lookup q
      = files.lookup q := by
  induction files with
  | nil => rfl
  | cons kv files ih =>
    simp only [List.map_cons]
    by_cases hk : kv.1 = name
    · rw [if_pos hk]
      have hne : (q == name) = false := by
        simp only [beq_eq_false_iff_ne]; exact hq
      have hne' : (q == kv.1) = false := by
        simp only [beq_eq_false_iff_ne]; intro e; exact hq (e.trans hk)
      simp only [List.lookup, hne, hne']
      exact ih
    · rw [if_neg hk]
      cases hbeq : (q == kv.1) with
      | true => simp only [List.lookup, hbeq]
      | false =>
        simp only [List.lookup, hbeq]
        exact ih

theorem any_map_replace_keys {β : Type} (files : List (String × β))
    (name q : String) (content : β) :
    ((files.map fun kv => if kv.1 = name then (name, content) else kv).any (·.1 = q))
      = files.any (·.1 = q) := by
  induction files with
  | nil => rfl
  | cons kv files ih =>
    simp only [List.map_cons, List.any_cons, ih]
    by_cases hk : kv.1 = name
    · rw [if_pos hk, hk]
    · rw [if_neg hk]

theorem lookup_append_general {β : Type} (l r : List (String × β)) (q : String) :
    (l ++ r).lookup q =
      match l.lookup q with
      | some x => some x
      | none => r.lookup q := by
  induction l with
  | nil => rfl
  | cons kv l ih =>
    cases hbeq : (q == kv.1) with
    | true => simp only [List.cons_append, List.lookup, hbeq]
    | false =>
      simp only [List.cons_append, List.lookup, hbeq]
      exact ih

theorem getProp_str_not_container (s k : String) :
    ((Js.str s).getProp k).isContainer = false := by
  simp only [Js.getProp]
  split
  · rfl
  · split <;> rfl

theorem scalar_chain : ∀ (ks : List String) (v : Js), v.isContainer = false →
    ∀ w, getJsonPart v ks = some w → w.isContainer = false := by
  intro ks
  induction ks with
  | nil =>
    intro v hv w hw
    rw [getJsonPart_nil] at hw
    cases hw
    exact hv
  | cons k ks ih =>
    intro v hv w hw
    rw [getJsonPart_cons] at hw
    by_cases hc : (v.truthy && v.hasOwnProp k) = true
    · rw [if_pos hc] at hw
      rcases v with _ | b | n | s | es | flds
      · simp [Js.truthy] at hc
      · simp [Js.hasOwnProp] at hc
      · simp [Js.hasOwnProp] at hc
      · exact ih _ (getProp_str_not_container s k) w hw
      · simp [Js.isContainer] at hv
      · simp [Js.isContainer] at hv
    · rw [if_neg hc] at hw
      cases hw

theorem parseIndex_ne_length (k : String) (i : Nat) (h : parseIndex k = some i) :
    k ≠ "length" := by
  intro e
  rw [e, show parseIndex "length" = none from by decide] at h
  cases h

theorem parseIndex_repr (k : String) (i : Nat) (h : parseIndex k = some i) :
    Nat.repr i = k := by
  rcases hn : natOfDigits k.toList with _ | n
  · simp only [parseIndex, hn] at h
    cases h
  · simp only [parseIndex, hn] at h
    by_cases hrr : Nat.repr n = k
    · rw [if_pos hrr] at h
      injection h with h
      rw [h] at hrr
      exact hrr
    · rw [if_neg hrr] at h
      cases h

theorem parseIndex_inj (k k' : String) (i j : Nat)
    (h : parseIndex k = some i) (h' : parseIndex k' = some j) (hij : i = j) :
    k = k' := by
  rw [← parseIndex_repr k i h, ← parseIndex_repr k' j h', hij]

theorem resolve_step_shape (doc : Js) (k : String) (ks : List String) (parent : Js)
    (h : getJsonPart doc (k :: ks) = some parent) (hc : parent.isContainer = true) :
    getJsonPart (doc.getProp k) ks = some parent ∧
    ((∃ flds, doc = .obj flds ∧ flds.any (·.1 = k) = true) ∨
     (∃ es i, doc = .arr es ∧ parseIndex k = some i ∧ i < es.length)) := by
  rw [getJsonPart_cons] at h
  by_cases hcnd : (doc.truthy && doc.hasOwnProp k) = true
  swap
  · rw [if_neg hcnd] at h; cases h
  rw [if_pos hcnd] at h
  rw [Bool.and_eq_true] at hcnd
  refine ⟨h, ?_⟩
  rcases doc with _ | b | n | s | es | flds
  · simp [Js.truthy] at hcnd
  · simp [Js.hasOwnProp] at hcnd
  · simp [Js.hasOwnProp] at hcnd
  · have hnc := scalar_chain ks _ (getProp_str_not_container s k) parent h
    rw [hnc] at hc
    cases hc
  · right
    have hown := hcnd.2
    simp only [Js.hasOwnProp, Bool.or_eq_true] at hown
    rcases hown with hlen | hidx
    · have hk : k = "length" := by simpa using hlen
      have hnc : ((Js.arr es).getProp k).isContainer = false := by
        simp [Js.getProp, hk, Js.isContainer]
      have h2 := scalar_chain ks _ hnc parent h
      rw [h2] at hc
      cases hc
    · rcases hpidx : parseIndex k with _ | i
      · simp only [hpidx] at hidx
        cases hidx
      · refine ⟨es, i, rfl, rfl, ?_⟩
        simp only [hpidx] at hidx
        simpa using hidx
  · left
    exact ⟨flds, rfl, by simpa [Js.hasOwnProp] using hcnd.2⟩

theorem updateOwn_obj_props (flds : List (String × Js)) (k : String) (c : Js)
    (hany : flds.any (·.1 = k) = true) :
    ((Js.obj flds).updateOwn k c).truthy = true ∧
    ((Js.obj flds).updateOwn k c).hasOwnProp k = true ∧
    ((Js.obj flds).updateOwn k c).getProp k = c := by
  refine ⟨rfl, ?_, ?_⟩
  · simp only [Js.updateOwn, Js.hasOwnProp, any_map_replace_keys]
    exact hany
  · simp only [Js.updateOwn, Js.getProp]
    rw [lookup_map_replace flds k c hany]
    rfl

theorem updateOwn_obj_other (flds : List (String × Js)) (k q : String) (c : Js)
    (hq : q ≠ k) :
    ((Js.obj flds).updateOwn k c).hasOwnProp q = (Js.obj flds).hasOwnProp q ∧
    ((Js.obj flds).updateOwn k c).getProp q = (Js.obj flds).getProp q := by
  constructor
  · simp only [Js.updateOwn, Js.hasOwnProp, any_map_replace_keys]
  · simp only [Js.updateOwn, Js.getProp]
    rw [lookup_map_replace_other flds k q c hq]

theorem updateOwn_arr_eq (es : List Js) (k : String) (i : Nat) (c : Js)
    (hpi : parseIndex k = some i) :
    (Js.arr es).updateOwn k c = .arr (es.set i c) := by
  simp [Js.updateOwn, hpi]

theorem updateOwn_arr_props (es : List Js) (k : String) (i : Nat) (c : Js)
    (hpi : parseIndex k = some i) (hlt : i < es.length) :
    ((Js.arr es).updateOwn k c).truthy = true ∧
    ((Js.arr es).updateOwn k c).hasOwnProp k = true ∧
    ((Js.arr es).updateOwn k c).getProp k = c := by
  have hkl := parseIndex_ne_length k i hpi
  rw [updateOwn_arr_eq es k i c hpi]
  refine ⟨rfl, ?_, ?_⟩
  · simp [Js.hasOwnProp, hpi, List.length_set, hlt]
  · simp only [Js.getProp]
    rw [if_neg hkl]
    simp only [hpi]
    rw [List.getElem?_set_eq_of_lt c hlt]
    rfl

theorem updateOwn_arr_other (es : List Js) (k q : String) (i : Nat) (c : Js)
    (hpi : parseIndex k = some i) (hq : q ≠ k) :
    ((Js.arr es).updateOwn k c).hasOwnProp q = (Js.arr es).hasOwnProp q ∧
    ((Js.arr es).updateOwn k c).getProp q = (Js.arr es).getProp q := by
  rw [updateOwn_arr_eq es k i c hpi]
  constructor
  · simp only [Js.hasOwnProp, List.length_set]
  · simp only [Js.getProp, List.length_set]
    by_cases hql : q = "length"
    · rw [if_pos hql, if_pos hql]
    · rw [if_neg hql, if_neg hql]
      rcases hqi : parseIndex q with _ | j
      · rfl
      · have hne : i ≠ j := fun e => hq (parseIndex_inj q k j i hqi hpi e.symm)
        simp [List.getElem?_set_ne hne]

theorem rebuildAt_resolves : ∀ (ks : List String) (doc parent p' : Js),
    getJsonPart doc ks = some parent → parent.isContainer = true →
    getJsonPart (rebuildAt doc ks p') ks = some p' := by
  intro ks
  induction ks with
  | nil =>
    intro doc parent p' h hc
    simp [rebuildAt, getJsonPart_nil]
  | cons k ks ih =>
    intro doc parent p' h hc
    obtain ⟨hrec, hshape⟩ := resolve_step_shape doc k ks parent h hc
    simp only [rebuildAt]
    rw [getJsonPart_cons]
    rcases hshape with ⟨flds, rfl, hany⟩ | ⟨es, i, rfl, hpi, hlt⟩
    · obtain ⟨htr, hown, hget⟩ :=
        updateOwn_obj_props flds k (rebuildAt ((Js.obj flds).getProp k) ks p') hany
      rw [if_pos (by rw [htr, hown]; rfl)]
      rw [hget]
      exact ih ((Js.obj flds).getProp k) parent p' hrec hc
    · obtain ⟨htr, hown, hget⟩ :=
        updateOwn_arr_props es k i (rebuildAt ((Js.arr es).getProp k) ks p') hpi hlt
      rw [if_pos (by rw [htr, hown]; rfl)]
      rw [hget]
      exact ih ((Js.arr es).getProp k) parent p' hrec hc

theorem rebuildAt_frame_diverge : ∀ (ks : List String) (q : List String)
    (doc parent p' : Js),
    getJsonPart doc ks = some parent → parent.isContainer = true →
    ¬(ks <+: q) → ¬(q <+: ks) →
    getJsonPart (rebuildAt doc ks p') q = getJsonPart doc q := by
  intro ks
  induction ks with
  | nil =>
    intro q doc parent p' _ _ hnp _
    exact absurd (List.nil_prefix) hnp
  | cons k ks ih =>
    intro q doc parent p' h hc hnp hnq
    rcases q with _ | ⟨k', q'⟩
    · exact absurd (List.nil_prefix) hnq
    · obtain ⟨hrec, hshape⟩ := resolve_step_shape doc k ks parent h hc
      simp only [rebuildAt]
      by_cases hk : k' = k
      · subst hk
        have hnp' : ¬(ks <+: q') := fun hx => hnp (by
          rw [List.cons_prefix_cons]; exact ⟨rfl, hx⟩)
        have hnq' : ¬(q' <+: ks) := fun hx => hnq (by
          rw [List.cons_prefix_cons]; exact ⟨rfl, hx⟩)
        rw [getJsonPart_cons, getJsonPart_cons]
        rcases hshape with ⟨flds, rfl, hany⟩ | ⟨es, i, rfl, hpi, hlt⟩
        · obtain ⟨htr, hown, hget⟩ :=
            updateOwn_obj_props flds k' (rebuildAt ((Js.obj flds).getProp k') ks p') hany
          rw [if_pos (by rw [htr, hown]; rfl), hget]
          rw [getJsonPart_cons] at h
          by_cases hcnd : ((Js.obj flds).truthy && (Js.obj flds).hasOwnProp k') = true
          · rw [if_pos hcnd]
            exact ih q' ((Js.obj flds).getProp k') parent p' hrec hc hnp' hnq'
          · rw [if_neg hcnd] at h; cases h
        · obtain ⟨htr, hown, hget⟩ :=
            updateOwn_arr_props es k' i (rebuildAt ((Js.arr es).getProp k') ks p') hpi hlt
          rw [if_pos (by rw [htr, hown]; rfl), hget]
          rw [getJsonPart_cons] at h
          by_cases hcnd : ((Js.arr es).truthy && (Js.arr es).hasOwnProp k') = true
          · rw [if_pos hcnd]
            exact ih q' ((Js.arr es).getProp k') parent p' hrec hc hnp' hnq'
          · rw [if_neg hcnd] at h; cases h
      · rw [getJsonPart_cons, getJsonPart_cons]
        rcases hshape with ⟨flds, rfl, hany⟩ | ⟨es, i, rfl, hpi, hlt⟩
        · obtain ⟨hown, hget⟩ :=
            updateOwn_obj_other flds k k' (rebuildAt ((Js.obj flds).getProp k) ks p') hk
          have htr : ((Js.obj flds).updateOwn k
              (rebuildAt ((Js.obj flds).getProp k) ks p')).truthy = (Js.obj flds).truthy := rfl
          rw [htr, hown, hget]
        · obtain ⟨hown, hget⟩ :=
            updateOwn_arr_other es k k' i (rebuildAt ((Js.arr es).getProp k) ks p') hpi hk
          have htr : ((Js.arr es).updateOwn k
              (rebuildAt ((Js.arr es).getProp k) ks p')).truthy = (Js.arr es).truthy := by
            rw [updateOwn_arr_eq es k i _ hpi]; rfl
          rw [htr, hown, hget]

theorem setElem_props (es : List Js) (i : Nat) (v : Js) :
    i < (setElem es i v).length ∧ (setElem es i v)[i]? = some v := by
  unfold setElem
  by_cases h : i < es.length
  · rw [if_pos h]
    exact ⟨by simpa [List.length_set] using h, List.getElem?_set_eq_of_lt v h⟩
  · rw [if_neg h]
    push_neg at h
    have hlen : (es ++ List.replicate (i - es.length) Js.null).length = i := by
      simp only [List.length_append, List.length_replicate]
      omega
    constructor
    · simp only [List.length_append, List.length_replicate, List.length_cons,
        List.length_nil]
      omega
    · rw [List.getElem?_append_right (by rw [hlen]), hlen]
      simp

theorem insertField_self (flds : List (String × Js)) (key : String) (v : Js)
    (hins : flds.any (·.1 = key) = true ∨ key ≠ "__proto__") :
    ((insertField flds key v).any (·.1 = key)) = true ∧
    (insertField flds key v).lookup key = some v := by
  unfold insertField
  by_cases ha : flds.any (·.1 = key) = true
  · simp only [ha, if_true]
    exact ⟨by rw [any_map_replace_keys]; exact ha,
      lookup_map_replace flds key v ha⟩
  · simp only [ha, Bool.false_eq_true, if_false]
    have hp : ¬key = "__proto__" := by
      rcases hins with hins | hins
      · exact absurd hins ha
      · exact hins
    rw [if_neg hp]
    constructor
    · simp [List.any_append]
    · rw [lookup_append_general]
      rw [lookup_eq_none_of_not_any flds key (Bool.eq_false_iff.mpr ha)]
      simp [List.lookup]

theorem insertField_other (flds : List (String × Js)) (key q : String) (v : Js)
    (hq : q ≠ key) :
    ((insertField flds key v).any (·.1 = q)) = flds.any (·.1 = q) ∧
    (insertField flds key v).lookup q = flds.lookup q := by
  unfold insertField
  by_cases ha : flds.any (·.1 = key) = true
  · simp only [ha, if_true]
    exact ⟨any_map_replace_keys flds key q v,
      lookup_map_replace_other flds key q v hq⟩
  · simp only [ha, Bool.false_eq_true, if_false]
    by_cases hp : key = "__proto__"
    · rw [if_pos hp]
      exact ⟨rfl, rfl⟩
    · rw [if_neg hp]
      constructor
      · rw [List.any_append]
        have hqk : ¬key = q := fun e => hq e.symm
        have : ([(key, v)].any (·.1 = q)) = false := by simp [hqk]
        rw [this, Bool.or_false]
      · rw [lookup_append_general]
        have hne : (q == key) = false := by
          simp only [beq_eq_false_iff_ne]; exact hq
        rcases hl : flds.lookup q with _ | x
        · simp [List.lookup, hne]
        · rfl

theorem setProp_goodTarget (parent : Js) (key : String) (v : Js)
    (hgt : goodTarget parent key) :
    ∃ parent', parent.setProp key v = some parent' ∧
      parent'.truthy = true ∧ parent'.hasOwnProp key = true ∧
      parent'.getProp key = v ∧ parent'.isContainer = true := by
  rcases hgt with ⟨flds, rfl, hins⟩ | ⟨es, i, rfl, hpi⟩
  · obtain ⟨hany, hlk⟩ := insertField_self flds key v hins
    refine ⟨.obj (insertField flds key v), rfl, rfl, ?_, ?_, rfl⟩
    · simpa [Js.hasOwnProp] using hany
    · simp [Js.getProp, hlk]
  · have hkl := parseIndex_ne_length key i hpi
    obtain ⟨hlen, hget⟩ := setElem_props es i v
    refine ⟨.arr (setElem es i v), ?_, rfl, ?_, ?_, rfl⟩
    · simp [Js.setProp, if_neg hkl, hpi]
    · simp [Js.hasOwnProp, hpi, hlen]
    · simp only [Js.getProp, if_neg hkl, hpi, hget]
      rfl

theorem setProp_frame_other (parent : Js) (key q : String) (v parent' : Js)
    (hft : frameTarget parent key) (hsp : parent.setProp key v = some parent')
    (hq : q ≠ key) :
    parent'.truthy = parent.truthy ∧
    parent'.hasOwnProp q = parent.hasOwnProp q ∧
    parent'.getProp q = parent.getProp q := by
  rcases hft with ⟨flds, rfl⟩ | ⟨es, i, rfl, hpi, hlt⟩
  · have hp' : parent' = .obj (insertField flds key v) := by
      simpa [Js.setProp] using hsp.symm
    subst hp'
    obtain ⟨hany, hlk⟩ := insertField_other flds key q v hq
    refine ⟨rfl, ?_, ?_⟩
    · simpa [Js.hasOwnProp] using hany
    · simp [Js.getProp, hlk]
  · have hkl := parseIndex_ne_length key i hpi
    have hp' : parent' = .arr (es.set i v) := by
      have : (Js.arr es).setProp key v = some (.arr (es.set i v)) := by
        simp [Js.setProp, if_neg hkl, hpi, setElem, hlt]
      rw [this] at hsp
      injection hsp with hsp
      exact hsp.symm
    subst hp'
    have hupd : Js.arr (es.set i v) = (Js.arr es).updateOwn key v :=
      (updateOwn_arr_eq es key i v hpi).symm
    rw [hupd]
    obtain ⟨hown, hget⟩ := updateOwn_arr_other es key q i v hpi hq
    refine ⟨?_, hown, hget⟩
    rw [updateOwn_arr_eq es key i v hpi]
    rfl

theorem splitDotsAux_ne_nil : ∀ (cs acc : List Char), splitDotsAux cs acc ≠ []
  | [], acc => by simp [splitDotsAux]
  | c :: rest, acc => by
    simp only [splitDotsAux]
    by_cases hc : c = '.'
    · rw [if_pos hc]; simp
    · rw [if_neg hc]; exact splitDotsAux_ne_nil rest (c :: acc)

theorem splitDots_ne_nil (s : String) : splitDots s ≠ [] :=
  splitDotsAux_ne_nil s.toList []

theorem dropLast_append_getLastD (l : List String) (h : l ≠ []) :
    l.dropLast ++ [l.getLastD ""] = l := by
  have h2 : l.getLastD "" = l.getLast h := by
    rw [List.getLastD_eq_getLast?, List.getLast?_eq_getLast_of_ne_nil h]
    rfl
  rw [h2, List.dropLast_append_getLast]

theorem set_then_resolve (config : Js) (pathStr raw : String) (parent : Js)
    (hres : getJsonPart config ((splitDots pathStr).dropLast) = some parent)
    (hgt : goodTarget parent ((splitDots pathStr).getLastD "")) :
    ∃ config', setCmd [pathStr, raw] config = .wrote config' ∧
      getJsonPart config' (splitDots pathStr) = some (decodeValue raw) := by
  obtain ⟨parent', hsp, htr', hown', hget', _⟩ :=
    setProp_goodTarget parent ((splitDots pathStr).getLastD "") (decodeValue raw) hgt
  have hcont : parent.isContainer = true := by
    rcases hgt with ⟨flds, rfl, _⟩ | ⟨es, i, rfl, _⟩ <;> rfl
  have hcheck : (parent.truthy && decide (parent.jsTypeof = "object")) = true := by
    rw [truthy_object_iff_container]; exact hcont
  refine ⟨rebuildAt config ((splitDots pathStr).dropLast) parent', ?_, ?_⟩
  · rw [setCmd_unfold]
    simp only [hres, hcheck, if_true, hsp]
  · have hsplit : (splitDots pathStr).dropLast ++ [(splitDots pathStr).getLastD ""]
        = splitDots pathStr := dropLast_append_getLastD _ (splitDots_ne_nil pathStr)
    have hmain : getJsonPart (rebuildAt config (splitDots pathStr).dropLast parent')
        ((splitDots pathStr).dropLast ++ [(splitDots pathStr).getLastD ""])
        = some (decodeValue raw) := by
      rw [getJsonPart_append,
        rebuildAt_resolves _ config parent parent' hres hcont,
        Option.some_bind, getJsonPart_cons, if_pos (by rw [htr', hown']; rfl),
        getJsonPart_nil, hget']
    rw [hsplit] at hmain
    exact hmain

theorem setCmd_wrote_inv (pathStr raw : String) (config config' : Js)
    (h : setCmd [pathStr, raw] config = .wrote config') :
    ∃ parent parent',
      getJsonPart config ((splitDots pathStr).dropLast) = some parent ∧
      parent.setProp ((splitDots pathStr).getLastD "") (decodeValue raw) = some parent' ∧
      config' = rebuildAt config ((splitDots pathStr).dropLast) parent' := by
  rw [setCmd_unfold] at h
  rcases hres : getJsonPart config ((splitDots pathStr).dropLast) with _ | parent
  · simp only [hres] at h
    cases h
  · simp only [hres] at h
    by_cases hcnd : (parent.truthy && decide (parent.jsTypeof = "object")) = true
    · rw [if_pos hcnd] at h
      rcases hsp : parent.setProp ((splitDots pathStr).getLastD "") (decodeValue raw)
          with _ | parent'
      · simp only [hsp] at h
        cases h
      · simp only [hsp] at h
        injection h with h
        exact ⟨parent, parent', rfl, hsp, h.symm⟩
    · rw [if_neg hcnd] at h
      simp at h

/-! ## Claim C2: the set/get round trip -/

/-- C2 (counterexample).  The claim quantifies over every path whose
parent resolves to a container.  On config `{"a": [true]}` the path
`a.foo` has parent the array `[true]` — a container, so `set` passes its
check and "succeeds" — but the assignment creates a non-index own
property on the array, which `JSON.stringify` drops: the persisted
configuration is unchanged and the subsequent `get a.foo` returns
`undefined`, not the stored `5`. -/
theorem c2_roundtrip_counterexample :
    splitDots "a.foo" = ["a", "foo"] ∧
    getJsonPart (.obj [("a", .arr [.bool true])]) ["a"] = some (.arr [.bool true]) ∧
    Js.isContainer (.arr [.bool true]) = true ∧
    decodeValue "5" = .num 5 ∧
    setCmd ["a.foo", "5"] (.obj [("a", .arr [.bool true])])
      = .wrote (.obj [("a", .arr [.bool true])]) ∧
    getCmd ["a.foo"] (.obj [("a", .arr [.bool true])]) = none := by
  refine ⟨by decide, by decide, by decide, by decide, by decide, by decide⟩

/-- C2 (amended).  For every dotted path whose parent resolves to an
object (with a final key that is either already present or different from
`"__proto__"`) or to an array with a canonical-index final key, `set p v`
succeeds and a subsequent `get p` on the written configuration document
returns exactly the stored value — the JSON interpretation of the raw
argument when it parses, the raw string otherwise. -/
theorem c2_set_get_roundtrip (config : Js) (pathStr raw : String) (parent : Js)
    (hres : getJsonPart config ((splitDots pathStr).dropLast) = some parent)
    (hgt : goodTarget parent ((splitDots pathStr).getLastD "")) :
    ∃ config', setCmd [pathStr, raw] config = .wrote config' ∧
      getCmd [pathStr] config' = some (decodeValue raw) := by
  obtain ⟨config', hw, hg⟩ := set_then_resolve config pathStr raw parent hres hgt
  exact ⟨config', hw, hg⟩

/-- C2 (witness): config `{"a": {}}`, `set a.b 5` then `get a.b`. -/
theorem c2_set_get_roundtrip_witness :
    ∃ config', setCmd ["a.b", "5"] (.obj [("a", .obj [])]) = .wrote config' ∧
      getCmd ["a.b"] config' = some (decodeValue "5") :=
  c2_set_get_roundtrip (.obj [("a", .obj [])]) "a.b" "5" (.obj [])
    (by decide) (Or.inl ⟨[], rfl, Or.inr (by decide)⟩)

/-! ## Claim C9: decoding of the raw `set` value -/

/-- C9 (confirmed).  For every raw value string handed to `set` on a
valid mutation target, the value stored at the path is the result of
interpreting the string as JSON when that parse succeeds
(`value = JSON.parse(args[1])`), and is the raw string stored verbatim
when the parse fails (the `catch` branch `value = args[1]`). -/
theorem c9_set_value_decoding (config : Js) (pathStr raw : String) (parent : Js)
    (hres : getJsonPart config ((splitDots pathStr).dropLast) = some parent)
    (hgt : goodTarget parent ((splitDots pathStr).getLastD "")) :
    ∃ config', setCmd [pathStr, raw] config = .wrote config' ∧
      (∀ v, jsonParse raw = some v →
        getJsonPart config' (splitDots pathStr) = some v) ∧
      (jsonParse raw = none →
        getJsonPart config' (splitDots pathStr) = some (.str raw)) := by
  obtain ⟨config', hw, hg⟩ := set_then_resolve config pathStr raw parent hres hgt
  refine ⟨config', hw, ?_, ?_⟩
  · intro v hv
    rw [hg]
    simp [decodeValue, hv]
  · intro hv
    rw [hg]
    simp [decodeValue, hv]

/-- C9 (witness): on config `{}` at path `k`, the raw string `"true"`
parses as JSON and is stored as the boolean, and the raw string `"oops]"`
does not parse and is stored verbatim. -/
theorem c9_set_value_decoding_witness :
    (∃ config', setCmd ["k", "true"] (.obj []) = .wrote config' ∧
      (∀ v, jsonParse "true" = some v →
        getJsonPart config' (splitDots "k") = some v) ∧
      (jsonParse "true" = none →
        getJsonPart config' (splitDots "k") = some (.str "true"))) ∧
    (∃ config', setCmd ["k", "oops]"] (.obj []) = .wrote config' ∧
      (∀ v, jsonParse "oops]" = some v →
        getJsonPart config' (splitDots "k") = some v) ∧
      (jsonParse "oops]" = none →
        getJsonPart config' (splitDots "k") = some (.str "oops]"))) :=
  ⟨c9_set_value_decoding (.obj []) "k" "true" (.obj [])
      (by decide) (Or.inl ⟨[], rfl, Or.inr (by decide)⟩),
    c9_set_value_decoding (.obj []) "k" "oops]" (.obj [])
      (by decide) (Or.inl ⟨[], rfl, Or.inr (by decide)⟩)⟩

/-! ## Claim C10: the frame property of `set` -/

/-- C10 (counterexample).  The claim says a successful `set` changes
nothing reachable by any path other than the assigned one.  But writing
`a.5` into the two-element array `[true,false]` fills the intervening
holes: the sibling path `a.2` — not the assigned path — changes from
`undefined` to `null` (and `a.length` changes from 2 to 6). -/
theorem c10_frame_counterexample :
    splitDots "a.5" = ["a", "5"] ∧
    setCmd ["a.5", "7"] (.obj [("a", .arr [.bool true, .bool false])])
      = .wrote (.obj [("a", .arr [.bool true, .bool false, .null, .null, .null,
          .num 7])]) ∧
    (["a", "2"] : List String) ≠ ["a", "5"] ∧
    getJsonPart (.obj [("a", .arr [.bool true, .bool false])]) ["a", "2"] = none ∧
    getJsonPart (.obj [("a", .arr [.bool true, .bool false, .null, .null, .null,
        .num 7])]) ["a", "2"] = some .null ∧
    getJsonPart (.obj [("a", .arr [.bool true, .bool false])]) ["a", "length"]
      = some (.num 2) ∧
    getJsonPart (.obj [("a", .arr [.bool true, .bool false, .null, .null, .null,
        .num 7])]) ["a", "length"] = some (.num 6) := by
  refine ⟨by decide, by decide, by decide, by decide, by decide, by decide, by decide⟩

/-- C10 (amended).  A successful `set` whose resolved parent is an object
— or an array with the final key a canonical index within the current
length — modifies only the assigned binding: every path that is neither a
prefix nor an extension of the assigned path resolves in the written
document to exactly what it resolved to before. -/
theorem c10_set_frame (config : Js) (pathStr raw : String) (config' : Js)
    (q : List String) (parent : Js)
    (hw : setCmd [pathStr, raw] config = .wrote config')
    (hres : getJsonPart config ((splitDots pathStr).dropLast) = some parent)
    (hft : frameTarget parent ((splitDots pathStr).getLastD ""))
    (hnp : ¬(splitDots pathStr <+: q))
    (hnq : ¬(q <+: splitDots pathStr)) :
    getJsonPart config' q = getJsonPart config q := by
  obtain ⟨p0, parent', hres0, hsp, hcfg⟩ := setCmd_wrote_inv pathStr raw config config' hw
  have hp0 : p0 = parent := by
    rw [hres0] at hres
    injection hres
  subst hp0
  subst hcfg
  have hcont : p0.isContainer = true := by
    rcases hft with ⟨flds, rfl⟩ | ⟨es, i, rfl, _, _⟩ <;> rfl
  have hsplit : (splitDots pathStr).dropLast ++ [(splitDots pathStr).getLastD ""]
      = splitDots pathStr := dropLast_append_getLastD _ (splitDots_ne_nil pathStr)
  by_cases hpq : (splitDots pathStr).dropLast <+: q
  · obtain ⟨q', rfl⟩ := hpq
    rcases q' with _ | ⟨k', rest⟩
    · exact absurd (by simpa using ⟨[(splitDots pathStr).getLastD ""], hsplit⟩ :
        (splitDots pathStr).dropLast ++ [] <+: splitDots pathStr) hnq
    · have hk' : k' ≠ (splitDots pathStr).getLastD "" := by
        intro e
        subst e
        apply hnp
        rw [← hsplit]
        exact ⟨rest, by simp⟩
      rw [getJsonPart_append, getJsonPart_append,
        rebuildAt_resolves _ config p0 parent' hres0 hcont, hres0,
        Option.some_bind, Option.some_bind]
      obtain ⟨htr, hown, hget⟩ :=
        setProp_frame_other p0 _ k' (decodeValue raw) parent' hft hsp hk'
      rw [getJsonPart_cons, getJsonPart_cons, htr, hown]
      by_cases hcnd : (p0.truthy && p0.hasOwnProp k') = true
      · rw [if_pos hcnd, if_pos hcnd, hget]
      · rw [if_neg hcnd, if_neg hcnd]
  · have hqp : ¬(q <+: (splitDots pathStr).dropLast) := by
      intro hx
      exact hnq (hx.trans ⟨[(splitDots pathStr).getLastD ""], hsplit⟩)
    exact rebuildAt_frame_diverge _ q config p0 parent' hres0 hcont hpq hqp

/-- C10 (witness): on config `{"a": {"x": 1, "y": 2}}`, `set a.x 9`
leaves the sibling path `a.y` resolving to its old value. -/
theorem c10_set_frame_witness :
    getJsonPart (.obj [("a", .obj [("x", .num 9), ("y", .num 2)])]) ["a", "y"]
      = getJsonPart (.obj [("a", .obj [("x", .num 1), ("y", .num 2)])]) ["a", "y"] :=
  c10_set_frame (.obj [("a", .obj [("x", .num 1), ("y", .num 2)])]) "a.x" "9"
    (.obj [("a", .obj [("x", .num 9), ("y", .num 2)])]) ["a", "y"]
    (.obj [("x", .num 1), ("y", .num 2)])
    (by decide) (by decide) (Or.inl ⟨_, rfl⟩) (by decide) (by decide)
